import Mathlib

/-!
Verification of the registration shim `src/mycpp/mymodule.cpp` and of the
high-order finite-element-space contract it exposes.

The visible source is the pybind11 glue:

  extern "C" void mymodule(py::object & res) {
    cout << "called mymodule" << endl;
    auto ngs = py::module::import("ngsolve");
    static py::module::module_def def;
    py::module m = py::module::create_extension_module("", "", &def);
    ExportFESpace<MyHighOrderFESpace>(m, "MyHighOrderFESpace", true);
    res = m;
  }

The finite-element implementation units (`myHOElement.cpp`, `myHOFESpace.cpp`)
are included by this file but are not part of the excerpt, so the element and
space operations below are modelled from the specification document.
-/

/-- A class entry registered into a scripting module; `isFESpace` records that
it was declared (via `ExportFESpace`) as a specialization of the host's
generic finite-element-space capability. -/
structure PyClass where
  cname : String
  isFESpace : Bool
deriving DecidableEq, Repr

/-- A scripting-layer extension module: name, docstring, exported classes. -/
structure PyModule where
  mname : String
  doc : String
  classes : List PyClass
deriving DecidableEq, Repr

/-- A python object, as far as `mymodule`'s out-parameter is concerned:
either some opaque object or a module handle. -/
inductive PyObj where
  | opaque' : PyObj
  | module : PyModule → PyObj
deriving DecidableEq, Repr

/-- The host's `ExportFESpace<T>(m, name, true)`: registers the named,
constructible type into module `m`, declared as a finite-element space. -/
def ExportFESpace (m : PyModule) (cname : String) : PyModule :=
  { m with classes := m.classes ++ [⟨cname, true⟩] }

/-- The component's module-level mutable state: the function-local
`static py::module::module_def def;` inside `mymodule`, written by
`create_extension_module` on every call. -/
structure MyModuleState where
  moduleDefWritten : Bool
deriving DecidableEq, Repr

/-- Observable side effects of one call to `mymodule`: lines written to
standard output and host modules imported. -/
structure Effects where
  stdout : List String
  imported : List String
deriving DecidableEq, Repr

/-- `create_extension_module(name, doc, &def)`: returns a fresh module and
marks the static `module_def` as written. -/
def createExtensionModule (st : MyModuleState) (name doc : String) :
    MyModuleState × PyModule :=
  ({ st with moduleDefWritten := true }, ⟨name, doc, []⟩)

/-- The registration entry point `mymodule` of `src/mycpp/mymodule.cpp`,
lines 10-23: prints "called mymodule", imports "ngsolve", creates an
extension module with empty name and docstring through the static
`module_def`, exports `MyHighOrderFESpace` into it, and overwrites the
out-parameter `res` with that module.  State passing makes the static
explicit: the result carries the new static state, the effects, and the
value written into `res`. -/
def mymodule (st : MyModuleState) (res : PyObj) :
    MyModuleState × Effects × PyObj :=
  let out := ["called mymodule"]
  let imps := ["ngsolve"]
  let (st', m0) := createExtensionModule st "" ""
  let m := ExportFESpace m0 "MyHighOrderFESpace"
  let _ := res
  (st', ⟨out, imps⟩, PyObj.module m)

/-- C1: calling `mymodule` registers the named, constructible type
`MyHighOrderFESpace` with the host's extension mechanism, declared as a
finite-element space: whatever the static state and the incoming
out-parameter, the module handed back through `res` exports a class named
"MyHighOrderFESpace" flagged as a finite-element-space specialization. -/
theorem mymodule_exports_MyHighOrderFESpace (st : MyModuleState) (res : PyObj) :
    ∃ m : PyModule, (mymodule st res).2.2 = PyObj.module m ∧
      (⟨"MyHighOrderFESpace", true⟩ : PyClass) ∈ m.classes := by
  refine ⟨⟨"", "", [⟨"MyHighOrderFESpace", true⟩]⟩, rfl, ?_⟩
  simp

/-- C2 counterexample: the claim asserts, in particular, that the component
holds no module-level mutable state between calls; but `mymodule` keeps the
function-local `static py::module::module_def def`, which
`create_extension_module` writes: starting from the unwritten static state,
the call changes the component's state. -/
theorem mymodule_mutates_static_state :
    (mymodule ⟨false⟩ PyObj.opaque').1 ≠ (⟨false⟩ : MyModuleState) := by
  decide

/-- C2 amended: the observable registration outcome is idempotent — the
effects and the module handed back are the same on every call, whatever the
static state and the incoming out-parameter, so a second call's outcome
equals the first's — but the component does keep one piece of module-level
mutable state, the static `module_def`, which after any call is in the
written state. -/
theorem mymodule_outcome_idempotent (st₁ st₂ : MyModuleState)
    (res₁ res₂ : PyObj) :
    (mymodule st₁ res₁).2 = (mymodule st₂ res₂).2 ∧
      (mymodule st₁ res₁).1 = (⟨true⟩ : MyModuleState) := by
  constructor <;> rfl

/-- C3 counterexample: the claim asserts no operation writes to any stream,
including `mymodule`; but `mymodule` (line 11) prints "called mymodule" to
standard output: its stdout trace is nonempty. -/
theorem mymodule_prints_line :
    (mymodule ⟨false⟩ PyObj.opaque').2.1.stdout ≠ ([] : List String) := by
  decide

/-- C3 amended: every modelled operation is a pure, synchronous computation,
except that the registration entry point `mymodule` writes exactly one line,
"called mymodule", to standard output (and imports the host module
"ngsolve"); it performs no other stream output. -/
theorem mymodule_stdout_exactly_one_line (st : MyModuleState) (res : PyObj) :
    (mymodule st res).2.1.stdout = ["called mymodule"] ∧
      (mymodule st res).2.1.imported = ["ngsolve"] := by
  constructor <;> rfl

/-- C10: every call to `mymodule`, regardless of the incoming out-parameter
and static state, prints the line "called mymodule", imports "ngsolve", and
overwrites `res` with a newly created extension module whose name and
docstring are both empty and which exports exactly one class,
`MyHighOrderFESpace`. -/
theorem mymodule_complete_behavior (st : MyModuleState) (res : PyObj) :
    mymodule st res =
      (⟨true⟩, ⟨["called mymodule"], ["ngsolve"]⟩,
        PyObj.module ⟨"", "", [⟨"MyHighOrderFESpace", true⟩]⟩) := by
  rfl

/-! ## Reference basis generator, modelled from the spec

The implementation units `myHOElement.cpp` and `myHOFESpace.cpp` are included
by `mymodule.cpp` but are not part of the excerpt; everything from here on is
modelled from the specification document. -/

/-- Modelled from the spec: the supported reference-cell kinds of the missing
element unit `myHOElement.cpp` — segment, triangle, tetrahedron (§4.1). -/
inductive CellGeom where
  | segm : CellGeom
  | trig : CellGeom
  | tet : CellGeom
deriving DecidableEq, Repr

/-- Modelled from the spec: multivariate polynomial expressions over the
reference coordinates, used to write the basis functions and take their
gradients symbolically. -/
inductive PolyE where
  | const : ℚ → PolyE
  | var : Nat → PolyE
  | add : PolyE → PolyE → PolyE
  | sub : PolyE → PolyE → PolyE
  | mul : PolyE → PolyE → PolyE
deriving DecidableEq, Repr

/-- Evaluate a polynomial expression at a reference point (x, y, z). -/
def PolyE.evalP : PolyE → ℚ × ℚ × ℚ → ℚ
  | .const c, _ => c
  | .var 0, (x, _, _) => x
  | .var 1, (_, y, _) => y
  | .var 2, (_, _, z) => z
  | .var _, _ => 0
  | .add a b, p => a.evalP p + b.evalP p
  | .sub a b, p => a.evalP p - b.evalP p
  | .mul a b, p => a.evalP p * b.evalP p

/-- Symbolic partial derivative with respect to variable `i`. -/
def PolyE.dvar (i : Nat) : PolyE → PolyE
  | .const _ => .const 0
  | .var j => if i = j then .const 1 else .const 0
  | .add a b => .add (a.dvar i) (b.dvar i)
  | .sub a b => .sub (a.dvar i) (b.dvar i)
  | .mul a b => .add (.mul (a.dvar i) b) (.mul a (b.dvar i))

/-- `e ^ k` as a polynomial expression. -/
def PolyE.powE : PolyE → Nat → PolyE
  | _, 0 => .const 1
  | e, k + 1 => .mul e (e.powE k)

/-- Barycentric coordinate `λ i` of the reference cell, as an expression:
`λ 0 = 1 - x - y - z`, `λ 1 = x`, `λ 2 = y`, `λ 3 = z` (restricted to the
segment/triangle domains, the trailing coordinates vanish). -/
def lamE : Nat → PolyE
  | 0 => .sub (.sub (.sub (.const 1) (.var 0)) (.var 1)) (.var 2)
  | 1 => .var 0
  | 2 => .var 1
  | 3 => .var 2
  | _ => .const 0

/-- Modelled from the spec: one hierarchical basis function, identified by
the mesh entity it is attached to and its hierarchical index.  `edge a b k`
is the edge-interior function of polynomial degree `k + 2` on the edge with
vertices `a < b`; `face a b c i j` is a face-interior function of degree
`i + j + 3`; `cell i j k` a cell-interior function of degree `i + j + k + 4`.
Being the same object at every order is what makes the family hierarchical. -/
inductive BasisFn where
  | vert : Nat → BasisFn
  | edge : Nat → Nat → Nat → BasisFn
  | face : Nat → Nat → Nat → Nat → Nat → BasisFn
  | cell : Nat → Nat → Nat → BasisFn
deriving DecidableEq, Repr

/-- The polynomial expression of a basis function. -/
def BasisFn.form : BasisFn → PolyE
  | .vert i => lamE i
  | .edge a b k =>
      .mul (.mul (lamE a) (lamE b)) ((PolyE.sub (lamE b) (lamE a)).powE k)
  | .face a b c i j =>
      .mul (.mul (.mul (lamE a) (lamE b)) (lamE c))
        (.mul ((PolyE.sub (lamE b) (lamE a)).powE i)
          ((PolyE.sub (lamE c) (lamE a)).powE j))
  | .cell i j k =>
      .mul (.mul (.mul (.mul (lamE 0) (lamE 1)) (lamE 2)) (lamE 3))
        (.mul (.mul ((PolyE.sub (lamE 1) (lamE 0)).powE i)
          ((PolyE.sub (lamE 2) (lamE 0)).powE j))
          ((PolyE.sub (lamE 3) (lamE 0)).powE k))

/-- `value(point)` of a basis function (spec §4.1). -/
def evalBF (f : BasisFn) (pt : ℚ × ℚ × ℚ) : ℚ :=
  f.form.evalP pt

/-- `gradient(point)` of a basis function, via symbolic differentiation. -/
def gradBF (f : BasisFn) (pt : ℚ × ℚ × ℚ) : ℚ × ℚ × ℚ :=
  ((f.form.dvar 0).evalP pt, (f.form.dvar 1).evalP pt, (f.form.dvar 2).evalP pt)

/-- The pairs `(i, j)` with `i + j = d`, ordered by `i`. -/
def pairsDeg (d : Nat) : List (Nat × Nat) :=
  (List.range (d + 1)).map (fun i => (i, d - i))

/-- The pairs `(i, j)` with `i + j ≤ m`, ordered by total degree: ordering by
degree level makes each list an initial segment of the next. -/
def pairsLe : Nat → List (Nat × Nat)
  | 0 => pairsDeg 0
  | m + 1 => pairsLe m ++ pairsDeg (m + 1)

/-- The triples `(i, j, k)` with `i + j + k = d`, ordered by `(i, j)`. -/
def triplesDeg (d : Nat) : List (Nat × Nat × Nat) :=
  (pairsLe d).map (fun p => (p.1, p.2, d - p.1 - p.2))

/-- The triples `(i, j, k)` with `i + j + k ≤ m`, ordered by total degree. -/
def triplesLe : Nat → List (Nat × Nat × Nat)
  | 0 => triplesDeg 0
  | m + 1 => triplesLe m ++ triplesDeg (m + 1)

/-- The edge-interior block of an order-`p` basis on the edge `(a, b)`:
the `p - 1` hierarchical functions of degrees `2, …, p` (spec §4.1). -/
def edgeBlock (a b p : Nat) : List BasisFn :=
  (List.range (p - 1)).map (fun k => BasisFn.edge a b k)

/-- The face-interior block of an order-`p` basis on the triangular face
`(a, b, c)`: the `(p-1)(p-2)/2` functions of degree at most `p`. -/
def faceBlock (a b c : Nat) : Nat → List BasisFn
  | m + 3 => (pairsLe m).map (fun q => BasisFn.face a b c q.1 q.2)
  | _ => []

/-- The cell-interior block of an order-`p` tetrahedral basis:
the `(p-1)(p-2)(p-3)/6` functions of degree at most `p`. -/
def cellBlock : Nat → List BasisFn
  | m + 4 => (triplesLe m).map (fun t => BasisFn.cell t.1 t.2.1 t.2.2)
  | _ => []

/-- Modelled from the spec: the per-entity blocks of the order-`p`
hierarchical basis of a reference cell, in the mandated order — vertex
functions first, then edge-interior blocks by local edge index, then
face-interior blocks, then the cell-interior block (spec §4.1). -/
def blocksOf : CellGeom → Nat → List (List BasisFn)
  | .segm, p => [[.vert 0, .vert 1], edgeBlock 0 1 p]
  | .trig, p => [[.vert 0, .vert 1, .vert 2],
      edgeBlock 0 1 p, edgeBlock 0 2 p, edgeBlock 1 2 p,
      faceBlock 0 1 2 p]
  | .tet, p => [[.vert 0, .vert 1, .vert 2, .vert 3],
      edgeBlock 0 1 p, edgeBlock 0 2 p, edgeBlock 0 3 p,
      edgeBlock 1 2 p, edgeBlock 1 3 p, edgeBlock 2 3 p,
      faceBlock 0 1 2 p, faceBlock 0 1 3 p, faceBlock 0 2 3 p,
      faceBlock 1 2 3 p,
      cellBlock p]

/-- Concatenation of a list of lists. -/
def joinAll : List (List α) → List α
  | [] => []
  | l :: r => l ++ joinAll r

/-- Modelled from the spec: the full ordered basis of the order-`p` element
on a reference cell (spec §4.1). -/
def basisList (g : CellGeom) (p : Nat) : List BasisFn :=
  joinAll (blocksOf g p)

/-- Modelled from the spec: the supported maximum polynomial order of the
missing element unit (`p_max`). -/
def pMax : Nat := 10

/-- Modelled from the spec: the errors surfaced by the component
(spec §7): StateError (NotUpdated), UnsupportedOrder, OutOfDomain
(DomainError), OrderMismatch (ConsistencyError), ConfigurationError. -/
inductive FEError where
  | NotUpdated : FEError
  | UnsupportedOrder : FEError
  | OutOfDomain : FEError
  | OrderMismatch : FEError
  | ConfigurationError : FEError
deriving DecidableEq, Repr

/-- Modelled from the spec: a transient Finite Element instance — the cell's
geometric type and its order (uniform over the cell's entities here). -/
structure MyFE where
  geom : CellGeom
  order : Nat
deriving DecidableEq, Repr

/-- Modelled from the spec: constructing a Finite Element fails with an
`UnsupportedOrder` error exactly when the requested order exceeds the
supported maximum (spec §4.2). -/
def mkFE (g : CellGeom) (p : Nat) : Except FEError MyFE :=
  if p ≤ pMax then .ok ⟨g, p⟩ else .error .UnsupportedOrder

/-- Modelled from the spec: `GetNDof` of a Finite Element — the number of
local shape functions, i.e. the length of its basis (spec §4.2). -/
def MyFE.GetNDof (fe : MyFE) : Nat :=
  (basisList fe.geom fe.order).length

/-- The closed-form per-entity DOF-count sum the spec states (§3, §8):
1 DOF per vertex, `p − 1` per edge, `(p−1)(p−2)/2` per triangular face,
`(p−1)(p−2)(p−3)/6` for the tetrahedral cell interior, with the number of
entities of the given reference cell. -/
def closedFormNDof : CellGeom → Nat → Nat
  | .segm, p => 2 * 1 + (p - 1)
  | .trig, p => 3 * 1 + 3 * (p - 1) + (p - 1) * (p - 2) / 2
  | .tet, p => 4 * 1 + 6 * (p - 1) + 4 * ((p - 1) * (p - 2) / 2)
      + (p - 1) * (p - 2) * (p - 3) / 6

theorem pairsDeg_length (d : Nat) : (pairsDeg d).length = d + 1 := by
  simp [pairsDeg]

theorem pairsLe_len2 (m : Nat) : 2 * (pairsLe m).length = (m + 1) * (m + 2) := by
  induction m with
  | zero => rfl
  | succ m ih =>
      have h : (pairsLe (m + 1)).length = (pairsLe m).length + (m + 2) := by
        simp [pairsLe, pairsDeg_length]
      rw [h, Nat.mul_add, ih]; ring

theorem triplesDeg_length (d : Nat) :
    2 * (triplesDeg d).length = (d + 1) * (d + 2) := by
  simpa [triplesDeg] using pairsLe_len2 d

theorem triplesLe_len6 (m : Nat) :
    6 * (triplesLe m).length = (m + 1) * (m + 2) * (m + 3) := by
  induction m with
  | zero => rfl
  | succ m ih =>
      have h2 := triplesDeg_length (m + 1)
      have h : (triplesLe (m + 1)).length =
          (triplesLe m).length + (triplesDeg (m + 1)).length := by
        simp [triplesLe]
      rw [h, Nat.mul_add, ih]
      have h3 : 6 * (triplesDeg (m + 1)).length = 3 * ((m + 2) * (m + 3)) := by
        calc 6 * (triplesDeg (m + 1)).length
            = 3 * (2 * (triplesDeg (m + 1)).length) := by ring
          _ = 3 * ((m + 2) * (m + 3)) := by rw [h2]
      rw [h3]; ring

theorem edgeBlock_length (a b p : Nat) : (edgeBlock a b p).length = p - 1 := by
  simp [edgeBlock]

theorem faceBlock_length (a b c p : Nat) :
    (faceBlock a b c p).length = (p - 1) * (p - 2) / 2 := by
  rcases p with _ | _ | _ | m
  · rfl
  · rfl
  · rfl
  · have h2 := pairsLe_len2 m
    have h : (faceBlock a b c (m + 3)).length = (pairsLe m).length := by
      simp [faceBlock]
    rw [h]
    have e1 : m + 3 - 1 = m + 1 + 1 := by omega
    have e2 : m + 3 - 2 = m + 1 := by omega
    rw [e1, e2]
    have e3 : (m + 1 + 1) * (m + 1) = (m + 1) * (m + 2) := by ring
    rw [e3]
    omega

theorem cellBlock_length (p : Nat) :
    (cellBlock p).length = (p - 1) * (p - 2) * (p - 3) / 6 := by
  rcases p with _ | _ | _ | _ | m
  · rfl
  · rfl
  · rfl
  · rfl
  · have h6 := triplesLe_len6 m
    have h : (cellBlock (m + 4)).length = (triplesLe m).length := by
      simp [cellBlock]
    rw [h]
    have e1 : m + 4 - 1 = m + 3 := by omega
    have e2 : m + 4 - 2 = m + 2 := by omega
    have e3 : m + 4 - 3 = m + 1 := by omega
    rw [e1, e2, e3]
    have e4 : (m + 3) * (m + 2) * (m + 1) = (m + 1) * (m + 2) * (m + 3) := by
      ring
    rw [e4]
    omega

theorem joinAll_length (L : List (List α)) :
    (joinAll L).length = (L.map List.length).sum := by
  induction L with
  | nil => rfl
  | cons l r ih => simp [joinAll, ih]

/-- C5: for every supported cell geometry and every supported order (any
order the element constructor accepts, hence all of 0 … p_max), `GetNDof`
of the constructed Finite Element equals the closed-form sum of per-entity
DOF counts: 1 per vertex, `p−1` per edge, `(p−1)(p−2)/2` per triangular
face, plus the analogous cell-interior count. -/
theorem fe_ndof_closed_form (g : CellGeom) (p : Nat) (fe : MyFE)
    (h : mkFE g p = .ok fe) :
    fe.GetNDof = closedFormNDof g p := by
  have hfe : fe = ⟨g, p⟩ := by
    by_cases hp : p ≤ pMax
    · simp [mkFE, hp] at h; exact h.symm
    · simp [mkFE, hp] at h
  subst hfe
  have hE := edgeBlock_length
  have hF := faceBlock_length
  have hC := cellBlock_length
  cases g with
  | segm =>
      have : (basisList .segm p).length = 2 + (p - 1) := by
        simp [basisList, blocksOf, joinAll, hE]
        omega
      simpa [MyFE.GetNDof, closedFormNDof] using this
  | trig =>
      have : (basisList .trig p).length =
          3 + ((p - 1) + ((p - 1) + ((p - 1) + (p - 1) * (p - 2) / 2))) := by
        simp [basisList, blocksOf, joinAll, hE, hF]
        omega
      rw [MyFE.GetNDof] at *
      simp only [closedFormNDof]
      omega
  | tet =>
      have : (basisList .tet p).length =
          4 + ((p - 1) + ((p - 1) + ((p - 1) + ((p - 1) + ((p - 1) + ((p - 1) +
            ((p - 1) * (p - 2) / 2 + ((p - 1) * (p - 2) / 2 +
              ((p - 1) * (p - 2) / 2 + ((p - 1) * (p - 2) / 2 +
                (p - 1) * (p - 2) * (p - 3) / 6)))))))))) := by
        simp [basisList, blocksOf, joinAll, hE, hF, hC]
        omega
      rw [MyFE.GetNDof] at *
      simp only [closedFormNDof]
      omega

/-- C5 witness: the tetrahedral element of order 4 is constructible and its
`GetNDof` matches the closed form (35 = 4 + 6·3 + 4·3 + 1). -/
theorem fe_ndof_closed_form_witness :
    mkFE .tet 4 = .ok ⟨.tet, 4⟩ ∧
      (MyFE.GetNDof ⟨.tet, 4⟩ : Nat) = closedFormNDof .tet 4 :=
  ⟨by rfl, fe_ndof_closed_form .tet 4 ⟨.tet, 4⟩ (by rfl)⟩

/-! ## Finite element space, modelled from the spec -/

/-- Modelled from the spec: a triangular mesh cell, by its three global
vertex indices and the global indices of its three edges. -/
structure Trig where
  v0 : Nat
  v1 : Nat
  v2 : Nat
  e0 : Nat
  e1 : Nat
  e2 : Nat
deriving DecidableEq, Repr

/-- Modelled from the spec: the mesh handed to the Space at construction —
vertex count, edge list (vertex pairs), triangle list. -/
structure Mesh2D where
  nv : Nat
  edges : List (Nat × Nat)
  trigs : List Trig
deriving DecidableEq, Repr

/-- Interior DOF count of a triangular face at order `p` (spec §3). -/
def innerCount (p : Nat) : Nat := (p - 1) * (p - 2) / 2

/-- Modelled from the spec: the per-entity DOF counts of the Space, one list
entry per mesh entity, in the stable numbering order mandated by `Update` —
all vertices (1 DOF each), then all edges (`p − 1` DOFs each), then all
triangular cells (`(p−1)(p−2)/2` interior DOFs each), each block ordered by
entity global index (spec §4.3).  Entity `i` owns the half-open range of
global DOF indices starting at the sum of the counts before position `i`. -/
def dofCounts (mesh : Mesh2D) (p : Nat) : List Nat :=
  List.replicate mesh.nv 1 ++ mesh.edges.map (fun _ => p - 1)
    ++ mesh.trigs.map (fun _ => innerCount p)

/-- Modelled from the spec: the Space's state machine states (spec §4.3). -/
inductive SpaceState where
  | uninitialized : SpaceState
  | ready : SpaceState
  | stale : SpaceState
deriving DecidableEq, Repr

/-- Modelled from the spec: the Finite Element Space — mesh reference,
uniform order configuration, and state-machine state. -/
structure MySpace where
  mesh : Mesh2D
  order : Nat
  state : SpaceState
deriving DecidableEq, Repr

/-- Construction from a mesh reference and an order configuration: the Space
starts Uninitialized (spec §3, §4.3). -/
def MySpace.create (mesh : Mesh2D) (p : Nat) : MySpace :=
  ⟨mesh, p, .uninitialized⟩

/-- Modelled from the spec: `Update` recomputes the DOF numbering and moves
the Space from Stale or Uninitialized (or Ready) to Ready (spec §4.3). -/
def MySpace.Update (sp : MySpace) : MySpace :=
  { sp with state := .ready }

/-- Modelled from the spec: an order mutation — it changes the order
configuration and moves a Ready space to Stale (spec §4.3). -/
def MySpace.SetOrder (sp : MySpace) (p : Nat) : MySpace :=
  ⟨sp.mesh, p, match sp.state with | .ready => .stale | s => s⟩

/-- Modelled from the spec: global `GetNDof` of the Space — the sum of all
per-entity DOF counts (spec §4.3). -/
def MySpace.GetNDof (sp : MySpace) : Nat :=
  (dofCounts sp.mesh sp.order).sum

/-- The global DOF indices of triangle number `tIdx` with incidence `t`, in
local shape-function order: vertex DOFs, edge-interior DOFs by local edge,
then the cell's face-interior DOFs (spec §4.3). -/
def elementDofs (mesh : Mesh2D) (p : Nat) (tIdx : Nat) (t : Trig) : List Nat :=
  [t.v0, t.v1, t.v2]
    ++ joinAll ([t.e0, t.e1, t.e2].map (fun e =>
        (List.range (p - 1)).map (fun k => mesh.nv + e * (p - 1) + k)))
    ++ (List.range (innerCount p)).map (fun k =>
        mesh.nv + mesh.edges.length * (p - 1) + tIdx * innerCount p + k)

/-- Modelled from the spec: `GetDofNrs(cell)` — fails with the StateError
`NotUpdated` unless the Space is Ready; on a Ready space returns the global
DOF indices of the cell (spec §4.3). -/
def MySpace.GetDofNrs (sp : MySpace) (el : Nat) : Except FEError (List Nat) :=
  match sp.state with
  | .ready =>
      match sp.mesh.trigs[el]? with
      | some t => .ok (elementDofs sp.mesh sp.order el t)
      | none => .error .ConfigurationError
  | _ => .error .NotUpdated

/-- Modelled from the spec: `GetFE(cell)` — fails with the StateError
`NotUpdated` unless the Space is Ready; on a Ready space builds the cell's
Finite Element with the current order (spec §4.3). -/
def MySpace.GetFE (sp : MySpace) (el : Nat) : Except FEError MyFE :=
  match sp.state with
  | .ready =>
      if el < sp.mesh.trigs.length then mkFE .trig sp.order
      else .error .ConfigurationError
  | _ => .error .NotUpdated

/-- A state-affecting operation on the Space: `Update`, or an order mutation. -/
inductive MutOp where
  | update : MutOp
  | setOrder : Nat → MutOp
deriving DecidableEq, Repr

/-- Apply one state-affecting operation. -/
def applyMut (sp : MySpace) : MutOp → MySpace
  | .update => sp.Update
  | .setOrder p => sp.SetOrder p

/-- Run a sequence of state-affecting operations (queries leave the state
unchanged, so a trace need only record `Update`s and mutations). -/
def runTrace (sp : MySpace) (tr : List MutOp) : MySpace :=
  tr.foldl applyMut sp

theorem runTrace_mesh (sp : MySpace) (tr : List MutOp) :
    (runTrace sp tr).mesh = sp.mesh := by
  induction tr generalizing sp with
  | nil => rfl
  | cons op tr ih =>
      rw [runTrace, List.foldl_cons, ← runTrace, ih]
      cases op <;> rfl

theorem runTrace_no_update (sp : MySpace) (tr : List MutOp)
    (hs : sp.state = .uninitialized) (hu : MutOp.update ∉ tr) :
    (runTrace sp tr).state = .uninitialized := by
  induction tr generalizing sp with
  | nil => exact hs
  | cons op tr ih =>
      rw [runTrace, List.foldl_cons, ← runTrace]
      have hop : op ≠ .update := fun h => hu (h ▸ List.mem_cons_self _ _)
      have htr : MutOp.update ∉ tr := fun h => hu (List.mem_cons_of_mem _ h)
      apply ih _ _ htr
      cases op with
      | update => exact absurd rfl hop
      | setOrder q => simp [applyMut, MySpace.SetOrder, hs]

theorem runTrace_snoc (sp : MySpace) (tr : List MutOp) (op : MutOp) :
    runTrace sp (tr ++ [op]) = applyMut (runTrace sp tr) op := by
  simp [runTrace, List.foldl_append]

theorem setOrder_not_ready (sp : MySpace) (q : Nat) :
    (sp.SetOrder q).state ≠ .ready := by
  cases h : sp.state <;> simp [MySpace.SetOrder, h]

theorem getDofNrs_not_ready (sp : MySpace) (el : Nat)
    (h : sp.state ≠ .ready) :
    sp.GetDofNrs el = .error .NotUpdated := by
  cases hs : sp.state <;> simp [MySpace.GetDofNrs, hs] <;> exact absurd hs h

theorem getFE_not_ready (sp : MySpace) (el : Nat)
    (h : sp.state ≠ .ready) :
    sp.GetFE el = .error .NotUpdated := by
  cases hs : sp.state <;> simp [MySpace.GetFE, hs] <;> exact absurd hs h

/-- C4: the Space's state machine.  (1) Before the first `Update` — on a
freshly constructed Space, after any trace containing no `Update` — both
`GetDofNrs` and `GetFE` fail with the StateError `NotUpdated`.  (2) After an
order mutation with no follow-up `Update`, both fail with `NotUpdated`.
(3) After `Update` both succeed (for a valid cell, `GetFE` provided the
current order is supported).  (4) `Update` moves every state — Stale and
Uninitialized included — to Ready. -/
theorem space_state_machine (mesh : Mesh2D) (p : Nat) (tr : List MutOp)
    (el : Nat) (hel : el < mesh.trigs.length) :
    (MutOp.update ∉ tr →
      (runTrace (MySpace.create mesh p) tr).GetDofNrs el =
          .error .NotUpdated ∧
        (runTrace (MySpace.create mesh p) tr).GetFE el =
          .error .NotUpdated) ∧
    (∀ sp : MySpace, ∀ q : Nat,
      (runTrace sp (tr ++ [MutOp.setOrder q])).GetDofNrs el =
          .error .NotUpdated ∧
        (runTrace sp (tr ++ [MutOp.setOrder q])).GetFE el =
          .error .NotUpdated) ∧
    ((runTrace (MySpace.create mesh p) (tr ++ [MutOp.update])).GetDofNrs el =
        .ok (elementDofs mesh
          (runTrace (MySpace.create mesh p) (tr ++ [MutOp.update])).order el
          (mesh.trigs.get ⟨el, hel⟩)) ∧
      ((runTrace (MySpace.create mesh p) (tr ++ [MutOp.update])).order ≤ pMax →
        (runTrace (MySpace.create mesh p) (tr ++ [MutOp.update])).GetFE el =
          .ok ⟨.trig,
            (runTrace (MySpace.create mesh p) (tr ++ [MutOp.update])).order⟩)) ∧
    (∀ sp : MySpace, sp.Update.state = .ready) := by
  refine ⟨?_, ?_, ?_, fun _ => rfl⟩
  · intro hu
    have hs : (runTrace (MySpace.create mesh p) tr).state = .uninitialized :=
      runTrace_no_update _ tr rfl hu
    exact ⟨getDofNrs_not_ready _ el (by rw [hs]; intro h; cases h),
      getFE_not_ready _ el (by rw [hs]; intro h; cases h)⟩
  · intro sp q
    rw [runTrace_snoc]
    exact ⟨getDofNrs_not_ready _ el (setOrder_not_ready _ q),
      getFE_not_ready _ el (setOrder_not_ready _ q)⟩
  · rw [runTrace_snoc]
    have hmesh : (runTrace (MySpace.create mesh p) tr).mesh = mesh :=
      runTrace_mesh _ tr
    constructor
    · show (MySpace.Update _).GetDofNrs el = _
      rw [MySpace.GetDofNrs]
      simp only [MySpace.Update, hmesh]
      rw [List.getElem?_eq_getElem hel]
      rfl
    · intro hord
      show (MySpace.Update _).GetFE el = _
      rw [MySpace.GetFE]
      simp only [MySpace.Update, hmesh]
      have hordu : (runTrace (MySpace.create mesh p) tr).order ≤ pMax := hord
      simp [hel, mkFE, hordu]
      rfl

/-- Meshes for the spec's order-2 scenario: the unit triangle, and two
triangles sharing the edge from vertex 1 to vertex 2. -/
def unitTrigMesh : Mesh2D :=
  ⟨3, [(0, 1), (1, 2), (2, 0)], [⟨0, 1, 2, 0, 1, 2⟩]⟩

/-- Two triangles (0,1,2) and (1,3,2) sharing edge number 1 = (1,2):
4 vertices and 5 edges in total. -/
def twoTrigMesh : Mesh2D :=
  ⟨4, [(0, 1), (1, 2), (2, 0), (1, 3), (3, 2)],
    [⟨0, 1, 2, 0, 1, 2⟩, ⟨1, 3, 2, 3, 4, 1⟩]⟩

/-- C4 witness: on the concrete two-triangle mesh at order 2, the query
before any `Update` fails with `NotUpdated`, and after an `Update` it
returns the cell's DOF numbers. -/
theorem space_state_machine_witness :
    (0 < twoTrigMesh.trigs.length) ∧
      (runTrace (MySpace.create twoTrigMesh 2) []).GetDofNrs 0 =
        .error .NotUpdated ∧
      (runTrace (MySpace.create twoTrigMesh 2)
        ([] ++ [MutOp.update])).GetDofNrs 0 =
        .ok (elementDofs twoTrigMesh 2 0 ⟨0, 1, 2, 0, 1, 2⟩) := by
  have h := space_state_machine twoTrigMesh 2 [] 0 (by decide)
  exact ⟨by decide, (h.1 (by decide)).1, h.2.2.1.1⟩

/-- C6: the spec's order-2 scenario.  On the unit-triangle mesh at uniform
order 2 the Space manufactures a per-cell Finite Element whose `GetNDof` is
6 = 3 vertex DOFs + 3 edge-interior DOFs + 0 face-interior DOFs, and on the
two-triangle mesh sharing one edge the Space's global `GetNDof` is
9 = 4 vertex DOFs + 5 edge DOFs (the shared edge counted once). -/
theorem ndof_scenario_order2 :
    (MySpace.create unitTrigMesh 2).Update.GetFE 0 =
        .ok ⟨CellGeom.trig, 2⟩ ∧
      MyFE.GetNDof ⟨CellGeom.trig, 2⟩ = 6 ∧
      (MySpace.create twoTrigMesh 2).Update.GetNDof = 9 := by
  refine ⟨by rfl, by rfl, by rfl⟩

/-- The sum of the first `i` per-entity DOF counts: the start of entity
`i`'s global DOF index range. -/
def sumTake (l : List Nat) (i : Nat) : Nat := (l.take i).sum

/-- Entity (block) `i` of the count list `l` owns global DOF index `n`:
`n` lies in the half-open range assigned to position `i`. -/
def ownsDof (l : List Nat) (i n : Nat) : Prop :=
  sumTake l i ≤ n ∧ n < sumTake l i + l.getD i 0

instance (l : List Nat) (i n : Nat) : Decidable (ownsDof l i n) := by
  unfold ownsDof; infer_instance

theorem sumTake_cons_succ (a : Nat) (t : List Nat) (k : Nat) :
    sumTake (a :: t) (k + 1) = a + sumTake t k := by
  simp [sumTake]

/-- Half-open ranges laid end to end partition the index space: every index
below the total sum lies in exactly one block's range. -/
theorem block_partition (l : List Nat) (n : Nat) (h : n < l.sum) :
    ∃! i, ownsDof l i n := by
  induction l generalizing n with
  | nil => simp at h
  | cons a t ih =>
      by_cases hn : n < a
      · refine ⟨0, ⟨by simp [ownsDof, sumTake], ?_⟩, ?_⟩
        · simpa [ownsDof, sumTake] using hn
        · intro j hj
          cases j with
          | zero => rfl
          | succ k =>
              exfalso
              have h1 := hj.1
              rw [sumTake_cons_succ] at h1
              omega
      · push_neg at hn
        have h' : n - a < t.sum := by
          simp [List.sum_cons] at h
          omega
        obtain ⟨k, hk, huniq⟩ := ih (n - a) h'
        refine ⟨k + 1, ?_, ?_⟩
        · have h1 := hk.1
          have h2 := hk.2
          constructor
          · rw [sumTake_cons_succ]; omega
          · rw [sumTake_cons_succ]
            have : (a :: t).getD (k + 1) 0 = t.getD k 0 := by simp
            rw [this]; omega
        · intro j hj
          cases j with
          | zero =>
              exfalso
              have h2 := hj.2
              simp [ownsDof, sumTake] at h2
              omega
          | succ m =>
              have hm : ownsDof t m (n - a) := by
                have h1 := hj.1
                have h2 := hj.2
                rw [sumTake_cons_succ] at h1 h2
                have hg : (a :: t).getD (m + 1) 0 = t.getD m 0 := by simp
                rw [hg] at h2
                exact ⟨by omega, by omega⟩
              rw [huniq m hm]

/-- C7: DOF ownership partitions the global DOF index space.  After any
sequence of operations on a Space (so in particular after any `Update`),
every global DOF index below the Space's `GetNDof` lies in the DOF range of
exactly one mesh entity — the entities being the positions of `dofCounts`,
vertices then edges then cells; no index is owned by two distinct
entities. -/
theorem dof_partition (sp : MySpace) (tr : List MutOp) (n : Nat)
    (h : n < (runTrace sp tr).GetNDof) :
    ∃! i, ownsDof
      (dofCounts (runTrace sp tr).mesh (runTrace sp tr).order) i n :=
  block_partition _ n h

/-- C7 witness: on the two-triangle mesh at order 2 (9 global DOFs), DOF
index 7 is owned by exactly one entity. -/
theorem dof_partition_witness :
    7 < (runTrace (MySpace.create twoTrigMesh 2) []).GetNDof ∧
      ∃! i, ownsDof
        (dofCounts (runTrace (MySpace.create twoTrigMesh 2) []).mesh
          (runTrace (MySpace.create twoTrigMesh 2) []).order) i 7 :=
  ⟨by decide, dof_partition (MySpace.create twoTrigMesh 2) [] 7 (by decide)⟩

/-! ## Hierarchical inclusion and error conditions -/

theorem pairsLe_append {m' m : Nat} (h : m' ≤ m) :
    ∃ t, pairsLe m = pairsLe m' ++ t := by
  obtain ⟨d, rfl⟩ : ∃ d, m = m' + d := ⟨m - m', by omega⟩
  clear h
  induction d with
  | zero => exact ⟨[], by simp⟩
  | succ d ih =>
      obtain ⟨t, ht⟩ := ih
      refine ⟨t ++ pairsDeg (m' + d + 1), ?_⟩
      have hstep : pairsLe (m' + (d + 1)) =
          pairsLe (m' + d) ++ pairsDeg (m' + d + 1) := rfl
      rw [hstep, ht, List.append_assoc]

theorem pairsLe_take {m' m : Nat} (h : m' ≤ m) :
    (pairsLe m).take (pairsLe m').length = pairsLe m' := by
  obtain ⟨t, ht⟩ := pairsLe_append h
  rw [ht, List.take_left]

theorem triplesLe_append {m' m : Nat} (h : m' ≤ m) :
    ∃ t, triplesLe m = triplesLe m' ++ t := by
  obtain ⟨d, rfl⟩ : ∃ d, m = m' + d := ⟨m - m', by omega⟩
  clear h
  induction d with
  | zero => exact ⟨[], by simp⟩
  | succ d ih =>
      obtain ⟨t, ht⟩ := ih
      refine ⟨t ++ triplesDeg (m' + d + 1), ?_⟩
      have hstep : triplesLe (m' + (d + 1)) =
          triplesLe (m' + d) ++ triplesDeg (m' + d + 1) := rfl
      rw [hstep, ht, List.append_assoc]

theorem triplesLe_take {m' m : Nat} (h : m' ≤ m) :
    (triplesLe m).take (triplesLe m').length = triplesLe m' := by
  obtain ⟨t, ht⟩ := triplesLe_append h
  rw [ht, List.take_left]

theorem edgeBlock_take (a b : Nat) {p' p : Nat} (h : p' ≤ p) :
    edgeBlock a b p' = (edgeBlock a b p).take (edgeBlock a b p').length := by
  rw [edgeBlock_length]
  unfold edgeBlock
  rw [← List.map_take, List.take_range, Nat.min_eq_left (by omega)]

theorem faceBlock_take (a b c : Nat) {p' p : Nat} (h : p' ≤ p) :
    faceBlock a b c p' =
      (faceBlock a b c p).take (faceBlock a b c p').length := by
  rcases p' with _ | _ | _ | m'
  · rfl
  · rfl
  · rfl
  · rcases p with _ | _ | _ | m
    · omega
    · omega
    · omega
    · have hm : m' ≤ m := by omega
      show (pairsLe m').map (fun q => BasisFn.face a b c q.1 q.2) =
        ((pairsLe m).map (fun q => BasisFn.face a b c q.1 q.2)).take
          (((pairsLe m').map (fun q => BasisFn.face a b c q.1 q.2)).length)
      rw [List.length_map, ← List.map_take, pairsLe_take hm]

theorem cellBlock_take {p' p : Nat} (h : p' ≤ p) :
    cellBlock p' = (cellBlock p).take (cellBlock p').length := by
  rcases p' with _ | _ | _ | _ | m'
  · rfl
  · rfl
  · rfl
  · rfl
  · rcases p with _ | _ | _ | _ | m
    · omega
    · omega
    · omega
    · omega
    · have hm : m' ≤ m := by omega
      show (triplesLe m').map (fun t => BasisFn.cell t.1 t.2.1 t.2.2) =
        ((triplesLe m).map (fun t => BasisFn.cell t.1 t.2.1 t.2.2)).take
          (((triplesLe m').map (fun t => BasisFn.cell t.1 t.2.1 t.2.2)).length)
      rw [List.length_map, ← List.map_take, triplesLe_take hm]

theorem take_self (l : List BasisFn) : l = l.take l.length :=
  (List.take_length l).symm

theorem map_eval_take (B' B : List BasisFn) (hb : B' = B.take B'.length)
    (pt : ℚ × ℚ × ℚ) :
    B'.map (fun f => evalBF f pt) =
      (B.map (fun f => evalBF f pt)).take B'.length := by
  conv_lhs => rw [hb]
  exact List.map_take _ B B'.length

/-- C8: hierarchical inclusion.  For every reference-cell kind and every
pair of orders `p' ≤ p`, each per-entity block of the order-`p'` basis is an
initial segment of the corresponding block of the order-`p` basis — the
block's functions are the same objects, so the first N functions of the
larger block evaluate identically to the N functions of the lower-order
block at every reference point, N being the lower-order block's size.  In
particular the order-`p` basis is a superset of the order-`p − 1` basis. -/
theorem hierarchical_inclusion (g : CellGeom) (p p' : Nat) (h : p' ≤ p)
    (i : Nat) :
    (blocksOf g p').getD i [] =
        ((blocksOf g p).getD i []).take ((blocksOf g p').getD i []).length ∧
      ∀ pt : ℚ × ℚ × ℚ,
        ((blocksOf g p').getD i []).map (fun f => evalBF f pt) =
          (((blocksOf g p).getD i []).map (fun f => evalBF f pt)).take
            ((blocksOf g p').getD i []).length := by
  have main : (blocksOf g p').getD i [] =
      ((blocksOf g p).getD i []).take ((blocksOf g p').getD i []).length := by
    cases g with
    | segm =>
        rcases i with _ | _ | i
        · exact take_self _
        · exact edgeBlock_take 0 1 h
        · simp [blocksOf]
    | trig =>
        rcases i with _ | _ | _ | _ | _ | i
        · exact take_self _
        · exact edgeBlock_take 0 1 h
        · exact edgeBlock_take 0 2 h
        · exact edgeBlock_take 1 2 h
        · exact faceBlock_take 0 1 2 h
        · simp [blocksOf]
    | tet =>
        rcases i with _ | _ | _ | _ | _ | _ | _ | _ | _ | _ | _ | _ | i
        · exact take_self _
        · exact edgeBlock_take 0 1 h
        · exact edgeBlock_take 0 2 h
        · exact edgeBlock_take 0 3 h
        · exact edgeBlock_take 1 2 h
        · exact edgeBlock_take 1 3 h
        · exact edgeBlock_take 2 3 h
        · exact faceBlock_take 0 1 2 h
        · exact faceBlock_take 0 1 3 h
        · exact faceBlock_take 0 2 3 h
        · exact faceBlock_take 1 2 3 h
        · exact cellBlock_take h
        · simp [blocksOf]
  exact ⟨main, fun pt => map_eval_take _ _ main pt⟩

/-- C8 witness: on the triangle, the first edge block at order 2 is an
initial segment of the one at order 3, and the evaluations at the reference
point (1/3, 1/3, 0) agree. -/
theorem hierarchical_inclusion_witness :
    2 ≤ 3 ∧
      (blocksOf .trig 2).getD 1 [] =
        ((blocksOf .trig 3).getD 1 []).take
          ((blocksOf .trig 2).getD 1 []).length ∧
      ((blocksOf .trig 2).getD 1 []).map
          (fun f => evalBF f (1/3, 1/3, 0)) =
        (((blocksOf .trig 3).getD 1 []).map
          (fun f => evalBF f (1/3, 1/3, 0))).take
          ((blocksOf .trig 2).getD 1 []).length :=
  ⟨by decide, (hierarchical_inclusion .trig 3 2 (by decide) 1).1,
    (hierarchical_inclusion .trig 3 2 (by decide) 1).2 (1/3, 1/3, 0)⟩

/-- Modelled from the spec: the canonical reference domain of each cell kind
— unit interval, unit triangle, unit tetrahedron (spec §4.2, §7). -/
def inDomain : CellGeom → ℚ × ℚ × ℚ → Bool
  | .segm, (x, y, z) =>
      decide (0 ≤ x) && decide (x ≤ 1) && decide (y = 0) && decide (z = 0)
  | .trig, (x, y, z) =>
      decide (0 ≤ x) && decide (0 ≤ y) && decide (x + y ≤ 1) && decide (z = 0)
  | .tet, (x, y, z) =>
      decide (0 ≤ x) && decide (0 ≤ y) && decide (0 ≤ z) &&
        decide (x + y + z ≤ 1)

/-- Modelled from the spec: `CalcShape(referencePoint)` — evaluates every
local shape function at the point; the debug-time domain check fails with an
`OutOfDomain` error when the point lies outside the cell's canonical
domain (spec §4.2). -/
def MyFE.CalcShape (fe : MyFE) (pt : ℚ × ℚ × ℚ) : Except FEError (List ℚ) :=
  if inDomain fe.geom pt then
    .ok ((basisList fe.geom fe.order).map (fun f => evalBF f pt))
  else .error .OutOfDomain

/-- Modelled from the spec: `CalcDShape(referencePoint)` — gradients in
reference coordinates, with the same domain check (spec §4.2). -/
def MyFE.CalcDShape (fe : MyFE) (pt : ℚ × ℚ × ℚ) :
    Except FEError (List (ℚ × ℚ × ℚ)) :=
  if inDomain fe.geom pt then
    .ok ((basisList fe.geom fe.order).map (fun f => gradBF f pt))
  else .error .OutOfDomain

/-- C9: failure conditions of the Finite Element.  Construction fails with
an `UnsupportedOrder` error exactly when the requested order exceeds the
supported maximum (and succeeds otherwise), and `CalcShape`/`CalcDShape`
fail with an `OutOfDomain` error exactly when the reference point lies
outside the cell's canonical domain, succeeding on in-domain points. -/
theorem error_conditions (g : CellGeom) (p : Nat) (fe : MyFE)
    (pt : ℚ × ℚ × ℚ) :
    (pMax < p → mkFE g p = .error .UnsupportedOrder) ∧
      (p ≤ pMax → mkFE g p = .ok ⟨g, p⟩) ∧
      (inDomain fe.geom pt = false →
        fe.CalcShape pt = .error .OutOfDomain ∧
          fe.CalcDShape pt = .error .OutOfDomain) ∧
      (inDomain fe.geom pt = true →
        fe.CalcShape pt =
            .ok ((basisList fe.geom fe.order).map (fun f => evalBF f pt)) ∧
          fe.CalcDShape pt =
            .ok ((basisList fe.geom fe.order).map (fun f => gradBF f pt))) := by
  refine ⟨fun hp => ?_, fun hp => ?_, fun hd => ?_, fun hd => ?_⟩
  · simp [mkFE, Nat.not_le.mpr hp]
  · simp [mkFE, hp]
  · exact ⟨by simp [MyFE.CalcShape, hd], by simp [MyFE.CalcDShape, hd]⟩
  · exact ⟨by simp [MyFE.CalcShape, hd], by simp [MyFE.CalcDShape, hd]⟩

/-- C9 witness: order 11 exceeds `pMax = 10` and is rejected; order 2 is
accepted; the point (2, 0, 0) lies outside the unit triangle and evaluation
there is rejected; the vertex (0, 0, 0) is in-domain and evaluation there
succeeds. -/
theorem error_conditions_witness :
    (pMax < 11 ∧ mkFE .trig 11 = .error .UnsupportedOrder) ∧
      (2 ≤ pMax ∧ mkFE .trig 2 = .ok ⟨.trig, 2⟩) ∧
      (inDomain .trig (2, 0, 0) = false ∧
        MyFE.CalcShape ⟨.trig, 2⟩ (2, 0, 0) = .error .OutOfDomain) ∧
      (inDomain .trig (0, 0, 0) = true ∧
        MyFE.CalcShape ⟨.trig, 2⟩ (0, 0, 0) =
          .ok ((basisList .trig 2).map (fun f => evalBF f (0, 0, 0)))) :=
  ⟨⟨by decide, (error_conditions .trig 11 ⟨.trig, 2⟩ (2, 0, 0)).1 (by decide)⟩,
    ⟨by decide,
      (error_conditions .trig 2 ⟨.trig, 2⟩ (2, 0, 0)).2.1 (by decide)⟩,
    ⟨by norm_num [inDomain],
      ((error_conditions .trig 2 ⟨.trig, 2⟩ (2, 0, 0)).2.2.1
        (by norm_num [inDomain])).1⟩,
    ⟨by norm_num [inDomain],
      ((error_conditions .trig 2 ⟨.trig, 2⟩ (0, 0, 0)).2.2.2
        (by norm_num [inDomain])).1⟩⟩
